import Mathlib

/- Shallow embedding of vsoftco/garbage_collector (garbage_collector.cpp).

   The program keeps one process-wide table
     static std::map<void*, std::pair<std::size_t, bool>> GC::_memory;
   mapping an address to (size, is_array).  We model an address as a Nat,
   the table as an association list kept in insertion order (std::map keys
   are unique; our operations mirror the std::map operations the code
   uses: operator[] assignment, erase, find), and the underlying global
   deallocations (::operator delete / ::operator delete[]) as an explicit
   trace of events, so that "frees exactly once" and "scalar form vs
   array form" are statable. -/

namespace GCModel

abbrev Addr := Nat

/-- Value type of the table: std::pair<std::size_t, bool>, the requested
size and the is_array flag recorded at allocation time. -/
structure AllocRec where
  size : Nat
  is_array : Bool
deriving DecidableEq, Repr

/-- Model of GC::_memory, the std::map from address to record. -/
abbrev Memory := List (Addr × AllocRec)

/-- Which global deallocation function ran: ::operator delete (scalar)
or ::operator delete[] (array). -/
inductive Form where
  | scalar : Form
  | array : Form
deriving DecidableEq, Repr

/-- One underlying deallocation: which address, and which form freed it. -/
abbrev Event := Addr × Form

/-- Model of _memory.find(p): the first entry with key p, if any. -/
def mapFind? (m : Memory) (p : Addr) : Option AllocRec :=
  match m with
  | [] => none
  | e :: rest => if e.1 = p then some e.2 else mapFind? rest p

/-- Model of _memory.erase(p): drop the entry with key p, if present. -/
def mapErase (m : Memory) (p : Addr) : Memory :=
  match m with
  | [] => []
  | e :: rest => if e.1 = p then mapErase rest p else e :: mapErase rest p

/-- Model of the assignment _memory[p] = r: overwrite the record of p in
place when p is a key, otherwise add a new entry. -/
def mapAssign (m : Memory) (p : Addr) (r : AllocRec) : Memory :=
  match m with
  | [] => [(p, r)]
  | e :: rest => if e.1 = p then (p, r) :: rest else e :: mapAssign rest p r

/-- GC::is_managed (lines 115-118): _memory.find(p) != _memory.end(). -/
def is_managed (m : Memory) (p : Addr) : Bool :=
  (mapFind? m p).isSome

/-- GC::remove (lines 120-123): _memory.erase(p).  The erase touches only
the table, so the event trace of this operation is empty. -/
def remove (m : Memory) (p : Addr) : Memory × List Event :=
  (mapErase m p, [])

/-- GC::get (lines 125-131): if is_managed(p) return _memory[p] else
return (0, false).  Under the is_managed guard, operator[] reads the
stored record and never default-inserts. -/
def get (m : Memory) (p : Addr) : Nat × Bool :=
  if is_managed m p then
    match mapFind? m p with
    | some r => (r.size, r.is_array)
    | none => (0, false)
  else (0, false)

/-- Tagged operator new(size, GC::collect_t, is_array) (lines 140-145):
the fresh address addr comes from ::operator new (we take it as a
parameter), then _memory[addr] = (size, is_array). -/
def taggedNew (m : Memory) (addr : Addr) (size : Nat) (arr : Bool) : Memory :=
  mapAssign m addr (AllocRec.mk size arr)

/-- Tagged operator new[](size, GC::collect_t) (lines 147-152):
_memory[addr] = (size, true). -/
def taggedNewArr (m : Memory) (addr : Addr) (size : Nat) : Memory :=
  mapAssign m addr (AllocRec.mk size true)

/-- Tagged operator delete(p, GC::collect_t) (lines 154-158):
_memory.erase(p), then unconditionally ::operator delete(p) - one
scalar-form deallocation event, whether or not p was tracked. -/
def taggedDelete (m : Memory) (p : Addr) : Memory × List Event :=
  (mapErase m p, [(p, Form.scalar)])

/-- Tagged operator delete[](p, GC::collect_t) (lines 160-164):
_memory.erase(p), then ::operator delete[](p) - one array-form event. -/
def taggedDeleteArr (m : Memory) (p : Addr) : Memory × List Event :=
  (mapErase m p, [(p, Form.array)])

/-- One iteration of the loop in GC::clear_memory (lines 105-111): on
state (table, trace), entry elem with elem.second.second (the is_array
flag) true takes the branch calling the scalar tagged operator delete,
and the flag false takes the branch calling the array form; this is
exactly the branching written in the source. -/
def drainStep (acc : Memory × List Event) (elem : Addr × AllocRec) :
    Memory × List Event :=
  let r := if elem.2.is_array then taggedDelete acc.1 elem.1
           else taggedDeleteArr acc.1 elem.1
  (r.1, acc.2 ++ r.2)

/-- GC::clear_memory (lines 103-113): iterate over the entries of the
table (the loop reads the entry sequence as it stood on entry), run
drainStep on each, then _memory.clear() leaves the table empty. -/
def clear_memory (m : Memory) : Memory × List Event :=
  let d := m.foldl drainStep (m, [])
  (([] : Memory), d.2)

/-- GC::~GC (lines 133-138): prints a banner, calls clear_memory, then
display_memory, which only reads.  Its table and trace effect is that of
clear_memory. -/
def gcDtor (m : Memory) : Memory × List Event :=
  clear_memory m

/-- The event the drain loop emits for one table entry: keyed by the
entry address, scalar form when the is_array flag is true, array form
when it is false (the source branching of lines 107-110). -/
def eventOf (elem : Addr × AllocRec) : Event :=
  if elem.2.is_array then (elem.1, Form.scalar) else (elem.1, Form.array)

/- Helper lemmas about the table operations. -/

theorem mapFind_assign_self (m : Memory) (p : Addr) (r : AllocRec) :
    mapFind? (mapAssign m p r) p = some r := by
  induction m with
  | nil => simp [mapAssign, mapFind?]
  | cons e rest ih =>
    by_cases h : e.1 = p
    · simp [mapAssign, mapFind?, h]
    · simp [mapAssign, mapFind?, h, ih]

theorem mapFind_assign_ne (m : Memory) (p q : Addr) (r : AllocRec)
    (h : p ≠ q) : mapFind? (mapAssign m p r) q = mapFind? m q := by
  induction m with
  | nil => simp [mapAssign, mapFind?, h]
  | cons e rest ih =>
    by_cases he : e.1 = p
    · simp [mapAssign, mapFind?, he, h]
    · simp only [mapAssign, if_neg he]
      by_cases hq : e.1 = q
      · simp [mapFind?, hq]
      · simp [mapFind?, hq, ih]

theorem mapFind_erase_self (m : Memory) (p : Addr) :
    mapFind? (mapErase m p) p = none := by
  induction m with
  | nil => simp [mapErase, mapFind?]
  | cons e rest ih =>
    by_cases h : e.1 = p
    · simp [mapErase, h, ih]
    · simp [mapErase, mapFind?, h, ih]

theorem mapFind_erase_ne (m : Memory) (p q : Addr) (h : p ≠ q) :
    mapFind? (mapErase m p) q = mapFind? m q := by
  induction m with
  | nil => simp [mapErase]
  | cons e rest ih =>
    by_cases he : e.1 = p
    · have hq : e.1 ≠ q := by rw [he]; exact h
      rw [show mapErase (e :: rest) p = mapErase rest p by
            rw [mapErase, if_pos he]]
      rw [show mapFind? (e :: rest) q = mapFind? rest q by
            rw [mapFind?, if_neg hq]]
      exact ih
    · rw [show mapErase (e :: rest) p = e :: mapErase rest p by
            rw [mapErase, if_neg he]]
      by_cases hq : e.1 = q
      · rw [mapFind?, if_pos hq, mapFind?, if_pos hq]
      · rw [mapFind?, if_neg hq, mapFind?, if_neg hq, ih]

theorem mapErase_absent (m : Memory) (p : Addr)
    (h : mapFind? m p = none) : mapErase m p = m := by
  induction m with
  | nil => simp [mapErase]
  | cons e rest ih =>
    by_cases he : e.1 = p
    · rw [mapFind?, if_pos he] at h
      exact absurd h (by simp)
    · rw [mapFind?, if_neg he] at h
      rw [mapErase, if_neg he, ih h]

theorem mapErase_keys_ne (m : Memory) (p : Addr) :
    (mapErase m p).all (fun e => e.1 != p) = true := by
  induction m with
  | nil => simp [mapErase]
  | cons e rest ih =>
    by_cases he : e.1 = p
    · simp [mapErase, he, ih]
    · simp [mapErase, he, ih]

theorem eventOf_fst (elem : Addr × AllocRec) : (eventOf elem).1 = elem.1 := by
  unfold eventOf
  by_cases h : elem.2.is_array <;> simp [h]

theorem eventOf_all_keys (l : Memory) (a : Addr) :
    ((l.map eventOf).all fun e => e.1 != a) = (l.all fun e => e.1 != a) := by
  induction l with
  | nil => rfl
  | cons e rest ih =>
    simp only [List.map_cons, List.all_cons, eventOf_fst, ih]

theorem drain_foldl_trace (m : Memory) :
    ∀ (s : Memory) (acc : List Event),
      (m.foldl drainStep (s, acc)).2 = acc ++ m.map eventOf := by
  induction m with
  | nil => intro s acc; simp
  | cons e rest ih =>
    intro s acc
    rw [List.foldl_cons, List.map_cons]
    by_cases h : e.2.is_array
    · rw [show drainStep (s, acc) e =
          (mapErase s e.1, acc ++ [(e.1, Form.scalar)]) by
            simp [drainStep, taggedDelete, h]]
      rw [ih]
      simp [eventOf, h]
    · rw [show drainStep (s, acc) e =
          (mapErase s e.1, acc ++ [(e.1, Form.array)]) by
            simp [drainStep, taggedDeleteArr, h]]
      rw [ih]
      simp [eventOf, h]

theorem clear_memory_eq (m : Memory) :
    clear_memory m = (([] : Memory), m.map eventOf) := by
  show (([] : Memory), (m.foldl drainStep (m, [])).2) =
       (([] : Memory), m.map eventOf)
  rw [drain_foldl_trace m m []]
  simp

theorem get_eq_find (m : Memory) (p : Addr) :
    get m p = (match mapFind? m p with
               | some r => (r.size, r.is_array)
               | none => ((0 : Nat), false)) := by
  unfold get is_managed
  cases h : mapFind? m p <;> simp [h]

/- Claim theorems. -/

/-- Claim C1, evidence of the code bug: on a table holding one entry
whose is_array flag is true, GC::clear_memory frees it with the
scalar-form deallocation, and on one entry whose flag is false it uses
the array form - the exact opposite of the pairing the claim states
(and of the pairing the allocation side establishes, since the tagged
operator new[] records the flag true). -/
theorem clear_memory_inverts_forms :
    clear_memory [(1, AllocRec.mk 8 true)] =
      (([] : Memory), [(1, Form.scalar)]) ∧
    clear_memory [(2, AllocRec.mk 8 false)] =
      (([] : Memory), [(2, Form.array)]) := by
  constructor <;> rfl

/-- Claim C2: after clear_memory the table is empty and every address is
unmanaged, running clear_memory again releases nothing, and the GC
destructor performs exactly this drain. -/
theorem clear_memory_drains_all (m : Memory) :
    (clear_memory m).1 = ([] : Memory) ∧
    (∀ a : Addr, is_managed (clear_memory m).1 a = false) ∧
    clear_memory (clear_memory m).1 = (([] : Memory), ([] : List Event)) ∧
    gcDtor m = clear_memory m := by
  refine ⟨?_, ?_, ?_, rfl⟩ <;> simp [clear_memory_eq, is_managed, mapFind?]

/-- Claim C3: right after the tagged operator new records (a, n, arr),
is_managed a holds and get a returns exactly (n, arr). -/
theorem taggedNew_registers (m : Memory) (a : Addr) (n : Nat) (arr : Bool) :
    is_managed (taggedNew m a n arr) a = true ∧
    get (taggedNew m a n arr) a = (n, arr) := by
  have hf : mapFind? (taggedNew m a n arr) a = some (AllocRec.mk n arr) := by
    unfold taggedNew
    exact mapFind_assign_self m a (AllocRec.mk n arr)
  constructor
  · simp [is_managed, hf]
  · rw [get_eq_find, hf]

/-- Claim C4: the tagged operator delete erases the entry of a (so a is
no longer managed), performs exactly one underlying deallocation of a,
and a subsequent clear_memory emits no deallocation event for a, so a is
freed exactly once. -/
theorem taggedDelete_frees_once (m : Memory) (a : Addr) :
    is_managed (taggedDelete m a).1 a = false ∧
    (taggedDelete m a).2 = [(a, Form.scalar)] ∧
    ((clear_memory (taggedDelete m a).1).2).all (fun e => e.1 != a) = true := by
  refine ⟨?_, rfl, ?_⟩
  · simp [taggedDelete, is_managed, mapFind_erase_self]
  · rw [show (taggedDelete m a).1 = mapErase m a from rfl, clear_memory_eq]
    show ((List.map eventOf (mapErase m a)).all fun e => e.1 != a) = true
    rw [eventOf_all_keys]
    exact mapErase_keys_ne m a

/-- Claim C5, counterexample: address 5 is not in the empty table, yet
calling the tagged operator delete on it still performs a scalar-form
deallocation of 5 - so release on an untracked address is not free of
deallocation, refuting the claim as stated. -/
theorem release_absent_deallocates_cex :
    is_managed ([] : Memory) 5 = false ∧
    (taggedDelete ([] : Memory) 5).2 = [(5, Form.scalar)] ∧
    (taggedDelete ([] : Memory) 5).2 ≠ ([] : List Event) := by decide

/-- Claim C5, amended: for an address not in the table, remove is a
complete no-op (table unchanged, no deallocation, no error), and each
tagged delete leaves the table unchanged and raises no error but still
performs the underlying deallocation of the address (scalar form for
operator delete, array form for operator delete[]). -/
theorem absent_remove_release (m : Memory) (a : Addr)
    (h : is_managed m a = false) :
    remove m a = (m, ([] : List Event)) ∧
    taggedDelete m a = (m, [(a, Form.scalar)]) ∧
    taggedDeleteArr m a = (m, [(a, Form.array)]) := by
  have hf : mapFind? m a = none := by
    cases hfind : mapFind? m a with
    | none => rfl
    | some r => rw [is_managed, hfind] at h; simp at h
  have he : mapErase m a = m := mapErase_absent m a hf
  exact ⟨by rw [remove, he], by rw [taggedDelete, he],
         by rw [taggedDeleteArr, he]⟩

/-- Claim C5 witness: removing the untracked address 7 from a one-entry
table changes nothing and deallocates nothing. -/
theorem absent_remove_release_witness :
    remove [(1, AllocRec.mk 4 false)] 7 =
      ([(1, AllocRec.mk 4 false)], ([] : List Event)) :=
  (absent_remove_release [(1, AllocRec.mk 4 false)] 7 (by decide)).1

/-- Claim C6: registering the same address twice overwrites the prior
record, last write wins: after recording (a, 10, false) and then
(a, 20, true), get a returns (20, true). -/
theorem register_last_write_wins (m : Memory) (a : Addr) :
    get (taggedNew (taggedNew m a 10 false) a 20 true) a = (20, true) := by
  rw [get_eq_find]
  unfold taggedNew
  rw [mapFind_assign_self]

/-- Claim C7: an address that is not managed gets the absent result
(0, false) from get, and after its entry is erased it is reported as not
managed and get returns the absent result rather than the old record. -/
theorem get_absent_not_stale (m : Memory) (a : Addr) :
    (is_managed m a = false → get m a = ((0 : Nat), false)) ∧
    is_managed (remove m a).1 a = false ∧
    get (remove m a).1 a = ((0 : Nat), false) := by
  refine ⟨fun h => by simp [get, h], ?_, ?_⟩
  · simp [remove, is_managed, mapFind_erase_self]
  · simp [remove, get, is_managed, mapFind_erase_self]

/-- Claim C7 witness: querying address 9, absent from a one-entry table,
returns the absent result (0, false). -/
theorem get_absent_not_stale_witness :
    get [(3, AllocRec.mk 5 true)] 9 = ((0 : Nat), false) :=
  (get_absent_not_stale [(3, AllocRec.mk 5 true)] 9).1 (by decide)

/-- Claim C8: remove erases the entry of a - afterwards a is not
managed - and its event trace is empty: it performs no deallocation of
the underlying memory, whatever the record held. -/
theorem remove_no_dealloc (m : Memory) (a : Addr) :
    is_managed (remove m a).1 a = false ∧
    (remove m a).2 = ([] : List Event) := by
  refine ⟨?_, rfl⟩
  simp [remove, is_managed, mapFind_erase_self]

/-- Claim C9: after registering (1, 0, false), get 1 returns (0, false),
the very value get returns for an address absent from the table, even
though is_managed 1 is true - presence and absence are indistinguishable
through get for this record. -/
theorem zero_record_ambiguity :
    is_managed (taggedNew ([] : Memory) 1 0 false) 1 = true ∧
    get (taggedNew ([] : Memory) 1 0 false) 1 = ((0 : Nat), false) ∧
    is_managed ([] : Memory) 1 = false ∧
    get ([] : Memory) 1 = ((0 : Nat), false) := by decide

/-- Claim C10: for distinct addresses a and b, the tagged new, remove
and tagged delete on a leave the stored record of b (its lookup result,
management status and get result) unchanged. -/
theorem distinct_addr_frame (m : Memory) (a b : Addr) (n : Nat) (arr : Bool)
    (h : a ≠ b) :
    mapFind? (taggedNew m a n arr) b = mapFind? m b ∧
    mapFind? (remove m a).1 b = mapFind? m b ∧
    mapFind? (taggedDelete m a).1 b = mapFind? m b ∧
    is_managed (taggedNew m a n arr) b = is_managed m b ∧
    get (taggedNew m a n arr) b = get m b ∧
    is_managed (remove m a).1 b = is_managed m b ∧
    get (remove m a).1 b = get m b ∧
    is_managed (taggedDelete m a).1 b = is_managed m b ∧
    get (taggedDelete m a).1 b = get m b := by
  have h1 : mapFind? (taggedNew m a n arr) b = mapFind? m b := by
    unfold taggedNew
    exact mapFind_assign_ne m a b (AllocRec.mk n arr) h
  have h2 : mapFind? (mapErase m a) b = mapFind? m b := mapFind_erase_ne m a b h
  have him : ∀ m2 : Memory, mapFind? m2 b = mapFind? m b →
      is_managed m2 b = is_managed m b := by
    intro m2 hf
    simp only [is_managed, hf]
  have hget : ∀ m2 : Memory, mapFind? m2 b = mapFind? m b →
      get m2 b = get m b := by
    intro m2 hf
    rw [get_eq_find, get_eq_find, hf]
  exact ⟨h1, h2, h2, him _ h1, hget _ h1, him _ h2, hget _ h2,
         him _ h2, hget _ h2⟩

/-- Claim C10 witness: registering address 1 leaves the record of the
distinct address 2 unchanged. -/
theorem distinct_addr_frame_witness :
    mapFind? (taggedNew [(2, AllocRec.mk 3 true)] 1 9 false) 2 =
      mapFind? [(2, AllocRec.mk 3 true)] 2 :=
  (distinct_addr_frame [(2, AllocRec.mk 3 true)] 1 2 9 false (by decide)).1

end GCModel
